import Mathlib

/-!
Verification of the GLFW platform layer of the borealis UI toolkit
(library/lib/platforms/glfw/glfw_platform.cpp and glfw_video.cpp).

The C++ code is embedded shallowly:
  * process-wide mutable state (the module-global battery counter, the
    per-instance theme variant, the process environment) is gathered in an
    explicit state record, and every member function becomes a function
    from the state to a pair of the new state and the returned value;
  * C++ two's-complement "int" values are modelled as unbounded Int: every
    value handled here (battery in [1,100], framebuffer sizes) is far from
    the 32-bit boundaries, and C++ % and / on int are truncated remainder
    and truncated division, i.e. Int.tmod and Int.tdiv;
  * the "double" scale factor is modelled as an exact rational;
  * C strings are Lean String values, with strcasecmp modelled by
    case-folding the underlying character lists;
  * the event loop of mainLoopIteration is modelled with explicit fuel over
    an oracle giving the iconified attribute at each loop iteration.
-/

namespace Brls

/-- The theme variant enumeration of the toolkit (ThemeVariant::LIGHT / DARK). -/
inductive ThemeVariant
  | LIGHT
  | DARK
deriving DecidableEq

/-- The process-wide mutable state the platform facade queries touch:
the module-global battery counter (int battery = 50), the facade member
themeVariant, and the process environment (getenv). -/
structure PlatformState where
  battery : Int
  themeVariant : ThemeVariant
  env : String → Option String

/-- A platform state with a given battery counter, light theme and empty
environment, used for concrete evaluations. -/
def mkPlatformState (b : Int) : PlatformState :=
  { battery := b, themeVariant := ThemeVariant.LIGHT, env := fun _ => none }

/-- The initial value of the module-global battery counter (int battery = 50). -/
def batteryInit : Int := 50

/-- Embeds GLFWPlatform::getBatteryLevel:
  battery %= 100; battery++; return battery;
C++ % on int is truncated remainder, hence Int.tmod. Returns the new state
paired with the returned value. -/
def getBatteryLevel (s : PlatformState) : PlatformState × Int :=
  let b := s.battery.tmod 100 + 1
  ({ s with battery := b }, b)

/-- Embeds GLFWPlatform::canShowBatteryLevel: return true. -/
def canShowBatteryLevel (s : PlatformState) : PlatformState × Bool :=
  (s, true)

/-- Embeds GLFWPlatform::isBatteryCharging: return true. -/
def isBatteryCharging (s : PlatformState) : PlatformState × Bool :=
  (s, true)

/-- Embeds GLFWPlatform::hasWirelessConnection: return true. -/
def hasWirelessConnection (s : PlatformState) : PlatformState × Bool :=
  (s, true)

/-- Embeds GLFWPlatform::getWirelessLevel: return battery / 20.
C++ / on int is truncated division, hence Int.tdiv. -/
def getWirelessLevel (s : PlatformState) : PlatformState × Int :=
  (s, s.battery.tdiv 20)

/-- Embeds GLFWPlatform::getIpAddress: return "0.0.0.0". -/
def getIpAddress (s : PlatformState) : PlatformState × String :=
  (s, "0.0.0.0")

/-- Embeds GLFWPlatform::getDnsServer: return "0.0.0.0". -/
def getDnsServer (s : PlatformState) : PlatformState × String :=
  (s, "0.0.0.0")

/-- Embeds GLFWPlatform::isApplicationMode: return true. -/
def isApplicationMode (s : PlatformState) : PlatformState × Bool :=
  (s, true)

/-- Embeds GLFWPlatform::getName: return "GLFW". -/
def getName (s : PlatformState) : PlatformState × String :=
  (s, "GLFW")

/-- Modelled from the spec: LOCALE_DEFAULT, the compiled-in default locale
constant. It is defined in a header that is not part of the sources here;
the spec only requires it to be a fixed compiled-in constant. -/
def LOCALE_DEFAULT : String := "en-US"

/-- Embeds GLFWPlatform::getLocale: getenv("BOREALIS_LANG"); nullptr gives
LOCALE_DEFAULT, otherwise the environment value is returned verbatim. -/
def getLocale (s : PlatformState) : PlatformState × String :=
  match s.env "BOREALIS_LANG" with
  | none => (s, LOCALE_DEFAULT)
  | some v => (s, v)

/-- Embeds GLFWPlatform::getThemeVariant: return this->themeVariant. -/
def getThemeVariant (s : PlatformState) : PlatformState × ThemeVariant :=
  (s, s.themeVariant)

/-- Embeds GLFWPlatform::setThemeVariant: this->themeVariant = theme. -/
def setThemeVariant (s : PlatformState) (theme : ThemeVariant) : PlatformState :=
  { s with themeVariant := theme }

/-- Embeds strcasecmp(a, b) == 0: case-insensitive equality of C strings,
as case-folded equality of the underlying character lists. -/
def strcaseEq (a b : String) : Bool :=
  a.data.map Char.toLower == b.data.map Char.toLower

/-- Modelled from the spec: the initial value of the themeVariant member,
declared in a header that is not part of the sources here; the spec states
the default is the light theme. -/
def themeVariantDefault : ThemeVariant := ThemeVariant.LIGHT

/-- Embeds the theme selection in the GLFWPlatform constructor:
  char* themeEnv = getenv("BOREALIS_THEME");
  if (themeEnv != nullptr && !strcasecmp(themeEnv, "DARK"))
      this->themeVariant = ThemeVariant::DARK;
The member keeps its default value in every other case. -/
def constructorThemeVariant (themeEnv : Option String) : ThemeVariant :=
  match themeEnv with
  | none => themeVariantDefault
  | some s => if strcaseEq s "DARK" then ThemeVariant.DARK else themeVariantDefault

/-- The battery counter state after n calls to getBatteryLevel. -/
def batteryIter (s : PlatformState) : Nat → PlatformState
  | 0 => s
  | n + 1 => (getBatteryLevel (batteryIter s n)).1

/-- The spec sentence of claim C1, taken literally: the value returned by a
call is (previous + 1) mod 100, with 0 mapped to 1. -/
def specBatteryNext (previous : Int) : Int :=
  if (previous + 1) % 100 = 0 then 1 else (previous + 1) % 100

theorem tmod_eq_emod_of_nonneg (a : Int) (h : 0 ≤ a) : a.tmod 100 = a % 100 :=
  Int.tmod_eq_emod h (by norm_num)

/-- C1, counterexample: with the counter at 99 (reached 49 calls after the
initial value 50), the next call returns 100, while the spec formula
(previous + 1) mod 100 with 0 mapped to 1 gives 1. -/
theorem getBatteryLevel_claim_counterexample :
    (batteryIter (mkPlatformState 50) 49).battery = 99 ∧
    (getBatteryLevel (mkPlatformState 99)).2 = 100 ∧
    specBatteryNext 99 = 1 ∧
    (getBatteryLevel (mkPlatformState 99)).2 ≠ specBatteryNext 99 := by
  refine ⟨by decide, by decide, by decide, by decide⟩

/-- C1, amended: starting from any nonnegative counter value, the value
returned by the (n+1)-st call to getBatteryLevel is
((initial + n) mod 100) + 1; the returned values cycle through 1..100 and
wrap from 100 back to 1. -/
theorem getBatteryLevel_cycle (s : PlatformState) (n : Nat)
    (h0 : 0 ≤ s.battery) :
    (getBatteryLevel (batteryIter s n)).2 = (s.battery + n) % 100 + 1 := by
  induction n with
  | zero =>
      show s.battery.tmod 100 + 1 = (s.battery + (0 : Nat)) % 100 + 1
      rw [tmod_eq_emod_of_nonneg s.battery h0]
      omega
  | succ n ih =>
      have hstate : (batteryIter s (n + 1)).battery
          = (getBatteryLevel (batteryIter s n)).2 := rfl
      show (batteryIter s (n + 1)).battery.tmod 100 + 1 = _
      rw [hstate, ih]
      have hnn : (0 : Int) ≤ (s.battery + n) % 100 + 1 := by omega
      rw [tmod_eq_emod_of_nonneg _ hnn]
      push_cast
      omega

/-- C1 witness: from the initial counter value 50, the fourth call returns
(50 + 3) mod 100 + 1 = 54. -/
theorem getBatteryLevel_cycle_witness :
    (getBatteryLevel (batteryIter (mkPlatformState 50) 3)).2 = (50 + 3) % 100 + 1 :=
  getBatteryLevel_cycle (mkPlatformState 50) 3 (by decide)

/-- C4: getWirelessLevel returns floor(battery / 20) for the battery
counter's current (nonnegative) value, and leaves the state unchanged. -/
theorem getWirelessLevel_floor (s : PlatformState) (h : 0 ≤ s.battery) :
    (getWirelessLevel s).1 = s ∧
    (getWirelessLevel s).2 = ⌊(s.battery : ℚ) / (20 : ℚ)⌋ := by
  refine ⟨rfl, ?_⟩
  show s.battery.tdiv 20 = _
  rw [show ((20 : ℚ)) = ((20 : ℕ) : ℚ) by norm_num, Rat.floor_intCast_div_natCast,
    Int.tdiv_eq_ediv h (by norm_num)]
  norm_cast

/-- C4 witness: with the counter at its initial value 50, getWirelessLevel
returns floor(50 / 20) = 2. -/
theorem getWirelessLevel_floor_witness :
    (getWirelessLevel (mkPlatformState 50)).2 = 2 := by
  have h := getWirelessLevel_floor (mkPlatformState 50) (by decide)
  rw [h.2, show (((mkPlatformState 50).battery : ℚ)) = (((50 : ℤ) : ℚ)) from rfl,
    show ((20 : ℚ)) = ((20 : ℕ) : ℚ) by norm_num, Rat.floor_intCast_div_natCast]
  decide

/-- C8: every capability/query operation of the facade leaves the state
unchanged; the single exception is getBatteryLevel, which updates the
module-global battery counter to (battery tmod 100) + 1 on every call — a
plain increment whenever the counter lies in [0, 100). -/
theorem queries_sideEffectFree (s : PlatformState) :
    (canShowBatteryLevel s).1 = s ∧
    (isBatteryCharging s).1 = s ∧
    (hasWirelessConnection s).1 = s ∧
    (getWirelessLevel s).1 = s ∧
    (getIpAddress s).1 = s ∧
    (getDnsServer s).1 = s ∧
    (isApplicationMode s).1 = s ∧
    (getName s).1 = s ∧
    (getLocale s).1 = s ∧
    (getThemeVariant s).1 = s ∧
    (getBatteryLevel s).1 = { s with battery := s.battery.tmod 100 + 1 } ∧
    (0 ≤ s.battery → s.battery < 100 →
      (getBatteryLevel s).1.battery = s.battery + 1) := by
  refine ⟨rfl, rfl, rfl, rfl, rfl, rfl, rfl, rfl, ?_, rfl, rfl, ?_⟩
  · unfold getLocale
    cases s.env "BOREALIS_LANG" <;> rfl
  · intro h1 h2
    show s.battery.tmod 100 + 1 = s.battery + 1
    rw [tmod_eq_emod_of_nonneg _ h1]
    omega

/-- C8 witness: at the initial state (counter 50), getBatteryLevel bumps the
counter to 51. -/
theorem queries_sideEffectFree_witness :
    (getBatteryLevel (mkPlatformState 50)).1.battery = 50 + 1 :=
  (queries_sideEffectFree
    (mkPlatformState 50)).2.2.2.2.2.2.2.2.2.2.2 (by decide) (by decide)

/-- C5: at construction, an environment value that case-folds to "dark"
selects the dark theme; absence of the variable or any other value leaves
the light default; and the theme set by setThemeVariant is exactly what
getThemeVariant then returns. -/
theorem themeVariant_selection :
    (∀ s : String, s.data.map Char.toLower = "dark".data →
      constructorThemeVariant (some s) = ThemeVariant.DARK) ∧
    (∀ s : String, s.data.map Char.toLower ≠ "dark".data →
      constructorThemeVariant (some s) = ThemeVariant.LIGHT) ∧
    constructorThemeVariant none = ThemeVariant.LIGHT ∧
    (∀ (st : PlatformState) (t : ThemeVariant),
      (getThemeVariant (setThemeVariant st t)).2 = t) := by
  refine ⟨?_, ?_, rfl, fun st t => rfl⟩
  · intro s h
    have hb : strcaseEq s "DARK" = true := by
      unfold strcaseEq
      rw [h]
      decide
    simp [constructorThemeVariant, hb]
  · intro s h
    have hD : "DARK".data.map Char.toLower = "dark".data := by decide
    have hb : strcaseEq s "DARK" = false := by
      unfold strcaseEq
      rw [hD]
      exact beq_eq_false_iff_ne.mpr h
    simp [constructorThemeVariant, hb, themeVariantDefault]

/-- C5 witness: "DaRk" selects the dark theme; the empty value and "Blue"
leave the light theme; a set-then-get round-trip returns what was set. -/
theorem themeVariant_selection_witness :
    constructorThemeVariant (some "DaRk") = ThemeVariant.DARK ∧
    constructorThemeVariant (some "") = ThemeVariant.LIGHT ∧
    constructorThemeVariant (some "Blue") = ThemeVariant.LIGHT ∧
    (getThemeVariant (setThemeVariant (mkPlatformState 50) ThemeVariant.DARK)).2
      = ThemeVariant.DARK :=
  ⟨themeVariant_selection.1 "DaRk" (by decide),
   themeVariant_selection.2.1 "" (by decide),
   themeVariant_selection.2.1 "Blue" (by decide),
   themeVariant_selection.2.2.2 (mkPlatformState 50) ThemeVariant.DARK⟩

/-- An environment carrying a single variable, for concrete evaluations. -/
def envWith (key value : String) : String → Option String :=
  fun q => if q = key then some value else none

/-- C6: with BOREALIS_LANG absent getLocale returns the compiled-in default
locale constant; with BOREALIS_LANG set to any value at all, that value is
returned verbatim. -/
theorem getLocale_env (s : PlatformState) :
    (s.env "BOREALIS_LANG" = none → (getLocale s).2 = LOCALE_DEFAULT) ∧
    (∀ v : String, s.env "BOREALIS_LANG" = some v → (getLocale s).2 = v) := by
  constructor
  · intro h
    simp [getLocale, h]
  · intro v h
    simp [getLocale, h]

/-- C6 witness: the empty environment yields LOCALE_DEFAULT, and a set value
(here not a valid locale string) is returned verbatim. -/
theorem getLocale_env_witness :
    (getLocale (mkPlatformState 50)).2 = LOCALE_DEFAULT ∧
    (getLocale { battery := 50, themeVariant := ThemeVariant.LIGHT,
                 env := envWith "BOREALIS_LANG" "not-a-locale" }).2 = "not-a-locale" :=
  ⟨(getLocale_env (mkPlatformState 50)).1 rfl,
   (getLocale_env _).2 "not-a-locale" rfl⟩

/-- The observable effect of one run of the framebuffer-resize callback:
the (process-wide) scale factor afterwards, whether the GL viewport was set,
and whether Application::onWindowResized was invoked. -/
structure ResizeEffect where
  scaleFactor : ℚ
  viewportSet : Bool
  appNotified : Bool
deriving DecidableEq

/-- Round a rational to an integer, to nearest with ties to even — the
IEEE 754 default rounding applied at integer granularity. -/
def roundHalfEven (r : ℚ) : ℤ :=
  if r - ⌊r⌋ < 1 / 2 then ⌊r⌋
  else if 1 / 2 < r - ⌊r⌋ then ⌊r⌋ + 1
  else if ⌊r⌋ % 2 = 0 then ⌊r⌋ else ⌊r⌋ + 1

/-- The IEEE binary64 rounding of a positive rational q in the normal
range: with e = floor(log2 q), the significand grid at exponent e has step
2^(e-52), so the rounded value is the nearest (ties to even) multiple of
2^(e-52). -/
def roundB64Pos (q : ℚ) : ℚ :=
  (roundHalfEven (q * 2 ^ (52 - Int.log 2 q)) : ℚ) * 2 ^ (Int.log 2 q - 52)

/-- The IEEE binary64 rounding of a rational in the normal range (sign
handled by symmetry, as IEEE rounding is sign-symmetric). Overflow,
underflow and subnormals are not modelled: every quotient of positive C
int values lies well inside the normal range. -/
def roundB64 (q : ℚ) : ℚ :=
  if 0 < q then roundB64Pos q
  else if q < 0 then -roundB64Pos (-q)
  else 0

/-- Embeds glfwWindowFramebufferSizeCallback: width and height are the
framebuffer dimensions carried by the event; wWidth and wHeight are what
glfwGetWindowSize reports; prior is the scale factor before the event.
A zero framebuffer dimension returns early, leaving everything unchanged;
otherwise the viewport is set, the scale factor becomes the double value
width * 1.0 / wWidth — the int-to-double conversions are exact for C int
magnitudes, and the binary64 division stores the correctly rounded exact
quotient — and the application is notified of the resize. -/
def glfwWindowFramebufferSizeCallback (prior : ℚ)
    (width height wWidth wHeight : Int) : ResizeEffect :=
  if width = 0 ∨ height = 0 then
    { scaleFactor := prior, viewportSet := false, appNotified := false }
  else
    { scaleFactor := roundB64 ((width : ℚ) / (wWidth : ℚ)), viewportSet := true,
      appNotified := true }

/-- Embeds GLFWVideoContext::getScaleFactor: return scaleFactor. -/
def getScaleFactor (scaleFactor : ℚ) : ℚ := scaleFactor

theorem roundHalfEven_intCast (n : ℤ) : roundHalfEven (n : ℚ) = n := by
  unfold roundHalfEven
  rw [Int.floor_intCast]
  norm_num

theorem roundB64Pos_eq_self (m em : ℤ) (hm : m.natAbs < 2 ^ 53)
    (hpos : 0 < (m : ℚ) * 2 ^ em) :
    roundB64Pos ((m : ℚ) * 2 ^ em) = (m : ℚ) * 2 ^ em := by
  have h2em : (0 : ℚ) < 2 ^ em := zpow_pos (by norm_num) em
  have hm0 : 0 < m := by
    rcases lt_trichotomy m 0 with h | h | h
    · exfalso
      have hq : (m : ℚ) < 0 := by exact_mod_cast h
      nlinarith
    · exfalso
      rw [h] at hpos
      norm_num at hpos
    · exact h
  have hmlt : (m : ℚ) < 2 ^ (53 : ℕ) := by
    exact_mod_cast (by omega : m < 2 ^ 53)
  set q : ℚ := (m : ℚ) * 2 ^ em with hq
  set e : ℤ := Int.log 2 q with he
  have hle : (2 : ℚ) ^ e ≤ q := Int.zpow_log_le_self (by norm_num) hpos
  have hub : q < 2 ^ (em + 53) := by
    have h1 : q < 2 ^ (53 : ℕ) * 2 ^ em := by
      rw [hq]
      exact mul_lt_mul_of_pos_right hmlt h2em
    calc q < 2 ^ (53 : ℕ) * 2 ^ em := h1
      _ = 2 ^ (em + 53) := by
          rw [← zpow_natCast (2 : ℚ) 53, ← zpow_add₀ (by norm_num : (2:ℚ) ≠ 0)]
          norm_num [add_comm]
  have helt : e < em + 53 := by
    have h2 : (2 : ℚ) ^ e < 2 ^ (em + 53) := lt_of_le_of_lt hle hub
    exact (zpow_lt_zpow_iff_right₀ (by norm_num : (1 : ℚ) < 2)).mp h2
  have hk0 : (0 : ℤ) ≤ em + 52 - e := by
    omega
  set k : ℕ := (em + 52 - e).toNat with hkdef
  have hkc : ((k : ℤ)) = em + 52 - e := Int.toNat_of_nonneg hk0
  have hNq : q * 2 ^ (52 - e) = ((m * 2 ^ k : ℤ) : ℚ) := by
    push_cast
    rw [hq, mul_assoc, ← zpow_natCast (2 : ℚ) k,
      ← zpow_add₀ (by norm_num : (2:ℚ) ≠ 0),
      show em + (52 - e) = (k : ℤ) by omega]
  unfold roundB64Pos
  rw [← he, hNq, roundHalfEven_intCast]
  push_cast
  rw [mul_assoc, ← zpow_natCast (2 : ℚ) k, ← zpow_add₀ (by norm_num : (2:ℚ) ≠ 0),
    show (k : ℤ) + (e - 52) = em by omega]

theorem roundB64Pos_dyadic (q : ℚ) :
    ∃ (n : ℤ) (t : ℤ), roundB64Pos q = (n : ℚ) * 2 ^ t :=
  ⟨roundHalfEven (q * 2 ^ (52 - Int.log 2 q)), Int.log 2 q - 52, rfl⟩

theorem one_third_not_dyadic (n t : ℤ) : (n : ℚ) * 2 ^ t ≠ 1 / 3 := by
  intro h
  rcases le_or_lt 0 t with ht | ht
  · lift t to ℕ using ht
    rw [zpow_natCast] at h
    have h3 : (3 * (n * 2 ^ t) : ℤ) = 1 := by
      exact_mod_cast (by rw [h]; norm_num : (3 : ℚ) * ((n : ℚ) * 2 ^ t) = 1)
    have hdvd : (3 : ℤ) ∣ 1 := ⟨n * 2 ^ t, h3.symm⟩
    norm_num at hdvd
  · set j : ℕ := (-t).toNat with hj
    have hjt : t = -(j : ℤ) := by omega
    rw [hjt, zpow_neg, zpow_natCast] at h
    have h2j : (0 : ℚ) < 2 ^ j := by positivity
    have h3 : (3 * n : ℤ) = 2 ^ j := by
      have hq : (3 : ℚ) * n = 2 ^ j := by
        field_simp at h
        linarith
      exact_mod_cast hq
    have hdvd : (3 : ℤ) ∣ 2 ^ j := ⟨n, h3.symm⟩
    have hdvd2 : (3 : ℤ) ∣ 2 := Int.prime_three.dvd_of_dvd_pow hdvd
    norm_num at hdvd2

/-- C2, counterexample: a 1-pixel framebuffer over a 3-pixel window — inputs
the claim quantifies over (W = 3 > 0, F_w = F_h = 1 > 0) — does not give a
scale factor of exactly F_w / W = 1/3: the callback stores the binary64
rounding of the quotient, a dyadic rational, and 1/3 is not dyadic. -/
theorem scaleFactor_claim_counterexample :
    (glfwWindowFramebufferSizeCallback 1 1 1 3 1).scaleFactor ≠ (1 : ℚ) / 3 := by
  have hcb : (glfwWindowFramebufferSizeCallback 1 1 1 3 1).scaleFactor
      = roundB64 ((1 : ℚ) / 3) := by
    unfold glfwWindowFramebufferSizeCallback
    rw [if_neg (by norm_num)]
    norm_num
  rw [hcb]
  unfold roundB64
  rw [if_pos (by norm_num : (0 : ℚ) < 1 / 3)]
  obtain ⟨n, t, hnt⟩ := roundB64Pos_dyadic (1 / 3)
  rw [hnt]
  exact one_third_not_dyadic n t

/-- C2, amended: for window width and framebuffer dimensions that are
positive C int values, the callback sets the scale factor, as read back by
getScaleFactor, to the binary64 rounding of F_w / W; that value equals
F_w / W exactly whenever the quotient can be written m * 2^t with
|m| < 2^53 (every binary64-representable quotient) — but not in general.
With either framebuffer dimension zero, the prior scale factor is kept and
the event is ignored (no viewport change, no resize notification). -/
theorem scaleFactor_update_rounded :
    (∀ (prior : ℚ) (fw fh wW wH : Int), 0 < wW → 0 < fw → 0 < fh →
      getScaleFactor
          (glfwWindowFramebufferSizeCallback prior fw fh wW wH).scaleFactor
        = roundB64 ((fw : ℚ) / (wW : ℚ))) ∧
    (∀ (prior : ℚ) (fw fh wW wH : Int) (m em : ℤ),
      0 < wW → 0 < fw → 0 < fh → fw < 2 ^ 31 → wW < 2 ^ 31 →
      (fw : ℚ) / (wW : ℚ) = (m : ℚ) * 2 ^ em → m.natAbs < 2 ^ 53 →
      getScaleFactor
          (glfwWindowFramebufferSizeCallback prior fw fh wW wH).scaleFactor
        = (fw : ℚ) / (wW : ℚ)) ∧
    (∀ (prior : ℚ) (fw fh wW wH : Int), fw = 0 ∨ fh = 0 →
      glfwWindowFramebufferSizeCallback prior fw fh wW wH
        = { scaleFactor := prior, viewportSet := false, appNotified := false }) := by
  refine ⟨?_, ?_, ?_⟩
  · intro prior fw fh wW wH hW hw hh
    have hcond : ¬(fw = 0 ∨ fh = 0) := by
      rintro (h | h) <;> omega
    unfold getScaleFactor glfwWindowFramebufferSizeCallback
    rw [if_neg hcond]
  · intro prior fw fh wW wH m em hW hw hh hwb hWb hrep hm
    have hcond : ¬(fw = 0 ∨ fh = 0) := by
      rintro (h | h) <;> omega
    have hqpos : 0 < (fw : ℚ) / (wW : ℚ) :=
      div_pos (by exact_mod_cast hw) (by exact_mod_cast hW)
    unfold getScaleFactor glfwWindowFramebufferSizeCallback
    rw [if_neg hcond]
    show roundB64 ((fw : ℚ) / (wW : ℚ)) = _
    unfold roundB64
    rw [if_pos hqpos, hrep]
    exact roundB64Pos_eq_self m em hm (hrep ▸ hqpos)
  · intro prior fw fh wW wH hcond
    unfold glfwWindowFramebufferSizeCallback
    rw [if_pos hcond]

/-- C2 witness: a 200-pixel framebuffer over a 100-pixel window gives
exactly 200/100 = 2 (the quotient 1 * 2^1 is representable); a zero-width
event leaves a prior scale factor of 3/2 untouched. -/
theorem scaleFactor_update_rounded_witness :
    getScaleFactor
        (glfwWindowFramebufferSizeCallback 1 200 100 100 50).scaleFactor
      = (200 : ℚ) / (100 : ℚ) ∧
    glfwWindowFramebufferSizeCallback (3 / 2) 0 100 100 50
      = { scaleFactor := 3 / 2, viewportSet := false, appNotified := false } :=
  ⟨scaleFactor_update_rounded.2.1 1 200 100 100 50 1 1 (by norm_num) (by norm_num)
      (by norm_num) (by norm_num) (by norm_num) (by norm_num) (by norm_num),
   scaleFactor_update_rounded.2.2 (3 / 2) 0 100 100 50 (Or.inl rfl)⟩

/-- One interaction of mainLoopIteration with the windowing library inside
its do/while loop: a non-blocking glfwPollEvents or a blocking
glfwWaitEvents. -/
inductive PumpAction
  | pollEvents
  | waitEvents
deriving DecidableEq

/-- The do/while loop of GLFWPlatform::mainLoopIteration, run against an
oracle giving the GLFW_ICONIFIED attribute at each iteration, with explicit
fuel. Each iteration reads the attribute; if the window is iconified it
performs a blocking wait and re-checks, otherwise it polls pending events
non-blocking and the loop exits. Returns the sequence of event-pump
interactions, or none if the fuel runs out with the window still
iconified. -/
def mainLoopIterationAux (iconified : Nat → Bool) : Nat → Option (List PumpAction)
  | 0 => none
  | fuel + 1 =>
    if iconified 0 then
      match mainLoopIterationAux (fun k => iconified (k + 1)) fuel with
      | none => none
      | some acts => some (PumpAction.waitEvents :: acts)
    else
      some [PumpAction.pollEvents]

/-- Embeds GLFWPlatform::mainLoopIteration: run the pump loop, then return
the negation of glfwWindowShouldClose, paired with the pump interactions
performed. -/
def mainLoopIteration (iconified : Nat → Bool) (shouldClose : Bool)
    (fuel : Nat) : Option (List PumpAction × Bool) :=
  (mainLoopIterationAux iconified fuel).map (fun acts => (acts, !shouldClose))

/-- C3: whenever a call to mainLoopIteration returns, its result is the
negation of the close flag the windowing library reports for the window at
that call — false exactly once a close request is pending, true before —
for every pattern of iconified transitions during the call. -/
theorem mainLoopIteration_return (iconified : Nat → Bool) (shouldClose : Bool)
    (fuel : Nat) (acts : List PumpAction) (b : Bool)
    (h : mainLoopIteration iconified shouldClose fuel = some (acts, b)) :
    b = !shouldClose := by
  unfold mainLoopIteration at h
  cases haux : mainLoopIterationAux iconified fuel with
  | none => rw [haux] at h; simp at h
  | some a =>
      rw [haux] at h
      exact (congrArg Prod.snd (Option.some.inj h)).symm

/-- C3 witness: with a close request pending and the window visible, the
call returns the negation of the close flag, i.e. false. -/
theorem mainLoopIteration_return_witness : (false : Bool) = !true :=
  mainLoopIteration_return (fun _ => false) true 1 [PumpAction.pollEvents] false rfl

/-- C7: if the window is iconified for the first n iterations and visible at
iteration n, the call performs exactly n blocking waits — one per
iteration while minimized — followed by a single non-blocking poll, and
only then returns (with the negated close flag). -/
theorem mainLoopIteration_pump (iconified : Nat → Bool) (shouldClose : Bool)
    (n fuel : Nat) (hmin : ∀ k, k < n → iconified k = true)
    (hvis : iconified n = false) (hfuel : n < fuel) :
    mainLoopIteration iconified shouldClose fuel
      = some (List.replicate n PumpAction.waitEvents ++ [PumpAction.pollEvents],
              !shouldClose) := by
  suffices haux : mainLoopIterationAux iconified fuel
      = some (List.replicate n PumpAction.waitEvents ++ [PumpAction.pollEvents]) by
    unfold mainLoopIteration
    rw [haux]
    rfl
  induction n generalizing iconified fuel with
  | zero =>
      obtain ⟨f, rfl⟩ : ∃ f, fuel = f + 1 := ⟨fuel - 1, by omega⟩
      unfold mainLoopIterationAux
      rw [hvis]
      rfl
  | succ n ih =>
      obtain ⟨f, rfl⟩ : ∃ f, fuel = f + 1 := ⟨fuel - 1, by omega⟩
      unfold mainLoopIterationAux
      rw [hmin 0 (Nat.succ_pos n),
        ih (fun k => iconified (k + 1)) f
          (fun k hk => hmin (k + 1) (by omega)) hvis (by omega)]
      simp [List.replicate_succ]

/-- C7 witness: iconified at iteration 0 and visible from iteration 1, the
call does one blocking wait, then one poll, then returns true (no close
request). -/
theorem mainLoopIteration_pump_witness :
    mainLoopIteration (fun k => k == 0) false 2
      = some (List.replicate 1 PumpAction.waitEvents ++ [PumpAction.pollEvents],
              !false) :=
  mainLoopIteration_pump (fun k => k == 0) false 1 2
    (fun k hk => by
      have hk0 : k = 0 := Nat.lt_one_iff.mp hk
      rw [hk0]
      rfl)
    rfl (by omega)

/-- The four sub-components owned by the platform facade. -/
inductive SubComponent
  | fontLoader
  | audioPlayer
  | videoContext
  | inputManager
deriving DecidableEq

/-- Embeds the body of the GLFWPlatform destructor: the sequence of delete
statements, in program order. -/
def destructorDeleteOrder : List SubComponent :=
  [SubComponent.fontLoader, SubComponent.audioPlayer,
   SubComponent.videoContext, SubComponent.inputManager]

/-- C9: the destructor deletes the four owned sub-components in exactly this
order: font loader, then audio player, then video context, then input
manager — each exactly once. -/
theorem destructor_delete_order :
    destructorDeleteOrder
      = [SubComponent.fontLoader, SubComponent.audioPlayer,
         SubComponent.videoContext, SubComponent.inputManager] ∧
    destructorDeleteOrder.Nodup ∧
    ∀ c : SubComponent, c ∈ destructorDeleteOrder := by
  refine ⟨rfl, by decide, fun c => by cases c <;> decide⟩

/-- An nvg color, with red, green, blue and alpha channels (float channels
modelled exactly over the rationals). -/
structure NVGcolor where
  r : ℚ
  g : ℚ
  b : ℚ
  a : ℚ
deriving DecidableEq

/-- A GL buffer that glClear can target. -/
inductive GLBuffer
  | color
  | depth
  | stencil
deriving DecidableEq

/-- The GL state touched by GLFWVideoContext::clear: the current clear
color. -/
structure GLClearState where
  clearColor : ℚ × ℚ × ℚ × ℚ
deriving DecidableEq

/-- Embeds glClearColor(r, g, b, a): replace the current clear color. -/
def glClearColor (st : GLClearState) (r g b a : ℚ) : GLClearState :=
  { st with clearColor := (r, g, b, a) }

/-- Embeds GLFWVideoContext::clear(color):
  glClearColor(color.r, color.g, color.b, 1.0f);
  glClear(GL_COLOR_BUFFER_BIT | GL_DEPTH_BUFFER_BIT | GL_STENCIL_BUFFER_BIT);
Returns the GL state after the call, the clear-color value in force when
glClear ran, and the buffers glClear targeted, in mask order. -/
def clear (st : GLClearState) (color : NVGcolor) :
    GLClearState × (ℚ × ℚ × ℚ × ℚ) × List GLBuffer :=
  let st2 := glClearColor st color.r color.g color.b 1
  (st2, st2.clearColor, [GLBuffer.color, GLBuffer.depth, GLBuffer.stencil])

/-- C10: clear(color) performs the buffer clear with clear color
(color.r, color.g, color.b, 1) — the alpha channel is forced to 1
regardless of the input alpha — and targets the color, depth and stencil
buffers; the input alpha has no effect on anything the call does. -/
theorem clear_forces_alpha (st : GLClearState) (color : NVGcolor) :
    (clear st color).2.1 = (color.r, color.g, color.b, 1) ∧
    (clear st color).1.clearColor = (color.r, color.g, color.b, 1) ∧
    (clear st color).2.2 = [GLBuffer.color, GLBuffer.depth, GLBuffer.stencil] ∧
    ∀ x : ℚ, clear st { color with a := x } = clear st color :=
  ⟨rfl, rfl, rfl, fun x => rfl⟩

end Brls
